import Mathlib

/-!
Shallow embedding of the URL shortener service (`urlService.js`, class
`URLService`) together with proofs of the specification's claims.

Modelling conventions:
* Time is an integer number of minutes since an arbitrary epoch.  `moment()`
  becomes an explicit `now : Int` parameter; `moment().isAfter(t)` becomes
  `now > t`; `createdAt.add(v, 'minutes')` adds `v` to the timestamp (and,
  as in moment.js, mutates the receiver — see `createShortURL`).
* The two JavaScript `Map`s (`urlStore`, `shortcodeToUrl`) are modelled as
  insertion-ordered association lists with the exact `Map` semantics:
  `set` overwrites an existing key in place, otherwise appends.
* `nanoid(8)` (the random shortcode source) is modelled as an oracle
  `gen : Nat → String` giving the code produced by the i-th call; nanoid's
  documented output is 8 characters over the URL alphabet `A-Za-z0-9_-`
  (predicate `nanoidChar`).  The entry id `nanoid()` is an explicit
  `newId : String` parameter.
* Thrown `Error`s are the explicit error kinds of the spec's taxonomy
  (`CreateError`); each operation returns its resulting store so that
  state changes of failing calls are observable.
-/

namespace URLService

/-- One recorded click (the object built in `recordClick`, lines 123–128). -/
structure ClickRecord where
  timestamp : Int
  referrer : String
  ip : String
  location : String
deriving Repr, DecidableEq

/-- One stored short-URL entry (the object built in `createShortURL`,
lines 68–76). -/
structure URLEntry where
  id : String
  originalURL : String
  shortcode : String
  createdAt : Int
  expiryTime : Int
  clicks : List ClickRecord
  totalClicks : Nat
deriving Repr, DecidableEq

/-- `Map.get`: value of the first (unique) pair with the given key. -/
def mapGet (m : List (String × α)) (k : String) : Option α :=
  match m with
  | [] => none
  | p :: rest => if p.1 = k then some p.2 else mapGet rest k

/-- `Map.has`. -/
def mapHas (m : List (String × α)) (k : String) : Bool :=
  (mapGet m k).isSome

/-- `Map.set`: overwrite an existing key in place, otherwise append
(JavaScript `Map` keeps insertion order). -/
def mapSet (m : List (String × α)) (k : String) (v : α) : List (String × α) :=
  match m with
  | [] => [(k, v)]
  | p :: rest => if p.1 = k then (k, v) :: rest else p :: mapSet rest k v

/-- `Map.values()` in insertion order. -/
def mapValues (m : List (String × α)) : List α :=
  m.map (·.2)

/-- The store's two maps: `urlStore : id → entry` and
`shortcodeToUrl : shortcode → id` (lines 5–6). -/
structure Store where
  urlStore : List (String × URLEntry)
  shortcodeToUrl : List (String × String)
deriving Repr, DecidableEq

/-- The store at process start: both maps empty. -/
def emptyStore : Store := ⟨[], []⟩

/-- `p` is an initial segment of `s` (character lists, so that it evaluates
inside the kernel). -/
def startsWithChars : List Char → List Char → Bool
  | [], _ => true
  | _ :: _, [] => false
  | c :: cs, d :: ds => c == d && startsWithChars cs ds

/-- Embedding of `validateURL` (lines 9–16): `new URL(url)` must succeed and
the protocol must be `http:` or `https:`.  Full WHATWG URL parsing is
abstracted to: the string starts with `http://` or `https://` and has a
nonempty remainder (the host part). -/
def validateURL (url : String) : Bool :=
  (startsWithChars "http://".data url.data &&
    decide ("http://".length < url.length)) ||
  (startsWithChars "https://".data url.data &&
    decide ("https://".length < url.length))

/-- A character matched by `[a-zA-Z0-9]`. -/
def isAlphanumChar (c : Char) : Bool :=
  ('a' ≤ c && c ≤ 'z') || ('A' ≤ c && c ≤ 'Z') || ('0' ≤ c && c ≤ '9')

/-- Embedding of `validateShortcode` (lines 18–22): a non-empty string
matching `^[a-zA-Z0-9]{3,20}$`. -/
def validateShortcode (s : String) : Bool :=
  !(s == "") && decide (3 ≤ s.length) && decide (s.length ≤ 20) &&
    s.data.all isAlphanumChar

/-- A character of nanoid's default URL alphabet: `A-Za-z0-9_-`. -/
def nanoidChar (c : Char) : Bool :=
  isAlphanumChar c || c == '_' || c == '-'

/-- `gen` is a possible behaviour of `nanoid(8)`: every produced code is
8 characters over nanoid's URL alphabet. -/
def NanoidGen (gen : Nat → String) : Prop :=
  ∀ i, (gen i).length = 8 ∧ (gen i).data.all nanoidChar = true

/-- The spec's error taxonomy for `createShortURL` (§7), matching the
`Error` messages thrown in lines 33, 45, 49, 55 and 58. -/
inductive CreateError where
  | invalidURL
  | invalidValidity
  | invalidShortcode
  | shortcodeCollision
  | generationExhausted
deriving Repr, DecidableEq

/-- The value returned by a successful `createShortURL` (lines 81–84). -/
structure CreateResult where
  shortLink : String
  expiry : Int
deriving Repr, DecidableEq

/-- The base address prepended to shortcodes in `shortLink`s. -/
def baseURL : String := "http://localhost:5000/"

/-- The retry loop of `generateShortcode` (lines 29–35): on the i-th
iteration (0-based) the code is `gen i` and `attempts = i + 1`; once
`attempts` exceeds `maxAttempts = 10` the loop throws, otherwise a code
absent from the shortcode map is returned. -/
def generateLoop (gen : Nat → String) (m : List (String × String)) (i : Nat) :
    Except CreateError String :=
  let code := gen i
  if i + 1 > 10 then .error .generationExhausted
  else if mapHas m code then generateLoop gen m (i + 1)
  else .ok code
termination_by 11 - i
decreasing_by omega

/-- Embedding of `generateShortcode` (lines 24–38). -/
def generateShortcode (gen : Nat → String) (m : List (String × String)) :
    Except CreateError String :=
  generateLoop gen m 0

/-- The shortcode selection of `createShortURL` (lines 52–63): a truthy
custom shortcode is validated and checked against the index, a falsy one
(`null`, `undefined` or `""`) falls through to the generator. -/
def pickShortcode (gen : Nat → String) (m : List (String × String)) :
    Option String → Except CreateError String
  | some c =>
    if c = "" then generateShortcode gen m
    else if !validateShortcode c then .error .invalidShortcode
    else if mapHas m c then .error .shortcodeCollision
    else .ok c
  | none => generateShortcode gen m

/-- Embedding of `createShortURL` (lines 40–90).
`validity : Option Int` models the JS parameter: `none` is an omitted
argument (default 30), `some v` a numeric argument.  The validity guard on
line 48, `validity && (typeof validity !== 'number' || validity <= 0)`,
becomes `v ≠ 0 ∧ v ≤ 0` on the post-default number: `0` is falsy, so it
slips past the guard.  `customShortcode` of `some ""` takes the generator
branch because `''` is falsy on line 53.  On lines 65–66 moment's `add`
MUTATES `createdAt` and returns it, so the stored `createdAt` and
`expiryTime` are both `now + v`. -/
def createShortURL (now : Int) (newId : String) (gen : Nat → String)
    (originalURL : String) (validity : Option Int) (customShortcode : Option String)
    (st : Store) : Store × Except CreateError CreateResult :=
  if !validateURL originalURL then (st, .error .invalidURL)
  else
    let v : Int := validity.getD 30
    if v ≠ 0 ∧ v ≤ 0 then (st, .error .invalidValidity)
    else
      match pickShortcode gen st.shortcodeToUrl customShortcode with
      | .error e => (st, .error e)
      | .ok shortcode =>
        let expiry : Int := now + v
        let entry : URLEntry :=
          { id := newId, originalURL := originalURL, shortcode := shortcode,
            createdAt := expiry, expiryTime := expiry,
            clicks := [], totalClicks := 0 }
        ({ urlStore := mapSet st.urlStore newId entry,
           shortcodeToUrl := mapSet st.shortcodeToUrl shortcode newId },
         .ok { shortLink := baseURL ++ shortcode, expiry := expiry })

/-- Embedding of `getURLByShortcode` (lines 92–109): `byShortcode → byID`
lookup, `null` on an unknown code, a falsy (`""`) id, a missing entry, or
`moment().isAfter(expiryTime)`. -/
def getURLByShortcode (now : Int) (st : Store) (shortcode : String) :
    Option URLEntry :=
  match mapGet st.shortcodeToUrl shortcode with
  | none => none
  | some urlId =>
    if urlId = "" then none
    else
      match mapGet st.urlStore urlId with
      | none => none
      | some e => if now > e.expiryTime then none else some e

/-- JS `x || d` for an optional string: `null`, `undefined` and `""` are
falsy and give the default. -/
def jsOrDefault (x : Option String) (d : String) : String :=
  match x with
  | some s => if s = "" then d else s
  | none => d

/-- The click object built in `recordClick` (lines 123–128). -/
def mkClick (now : Int) (referrer ip : Option String) : ClickRecord :=
  { timestamp := now, referrer := jsOrDefault referrer "direct",
    ip := jsOrDefault ip "unknown", location := "Unknown" }

/-- Lines 130–131: push one click onto the entry and bump `totalClicks`. -/
def addClick (e : URLEntry) (c : ClickRecord) : URLEntry :=
  { e with clicks := e.clicks ++ [c], totalClicks := e.totalClicks + 1 }

/-- Embedding of `recordClick` (lines 111–138): returns `false` (store
unchanged) when the code is unknown, the id falsy, the entry missing or
expired; otherwise pushes one click, increments `totalClicks` and returns
`true`.  The in-place mutation of the shared entry object is modelled by
writing the updated entry back at its id. -/
def recordClick (now : Int) (st : Store) (shortcode : String)
    (referrer ip : Option String) : Store × Bool :=
  match mapGet st.shortcodeToUrl shortcode with
  | none => (st, false)
  | some urlId =>
    if urlId = "" then (st, false)
    else
      match mapGet st.urlStore urlId with
      | none => (st, false)
      | some e =>
        if now > e.expiryTime then (st, false)
        else
          let e' : URLEntry := addClick e (mkClick now referrer ip)
          ({ st with urlStore := mapSet st.urlStore urlId e' }, true)

/-- One projected click of the statistics shape (lines 151–155):
`{timestamp, source, location}` with `source = referrer`. -/
structure ClickStat where
  timestamp : Int
  source : String
  location : String
deriving Repr, DecidableEq

/-- The statistics shape (lines 145–156 and 165–176). -/
structure URLStats where
  shortLink : String
  originalURL : String
  createdAt : Int
  expiryTime : Int
  totalClicks : Nat
  clicks : List ClickStat
deriving Repr, DecidableEq

/-- Projection of a click record to the statistics shape. -/
def clickProjection (c : ClickRecord) : ClickStat :=
  { timestamp := c.timestamp, source := c.referrer, location := c.location }

/-- Statistics projection of one entry, addressed by a shortcode. -/
def entryStats (shortcode : String) (e : URLEntry) : URLStats :=
  { shortLink := baseURL ++ shortcode, originalURL := e.originalURL,
    createdAt := e.createdAt, expiryTime := e.expiryTime,
    totalClicks := e.totalClicks,
    clicks := e.clicks.map clickProjection }

/-- Embedding of `getURLStatistics` (lines 140–161): the entry found by
`getURLByShortcode` (same visibility rule), projected. -/
def getURLStatistics (now : Int) (st : Store) (shortcode : String) :
    Option URLStats :=
  (getURLByShortcode now st shortcode).map (entryStats shortcode)

/-- Embedding of `getAllURLs` (lines 163–181): every entry of `urlStore`,
projected — no expiry check and no `now` parameter at all. -/
def getAllURLs (st : Store) : List URLStats :=
  (mapValues st.urlStore).map (fun e => entryStats e.shortcode e)

/-! ### Association-map lemmas -/

theorem mapGet_mapSet_self (m : List (String × α)) (k : String) (v : α) :
    mapGet (mapSet m k v) k = some v := by
  induction m with
  | nil => simp [mapSet, mapGet]
  | cons p rest ih =>
    by_cases h : p.1 = k
    · simp [mapSet, h, mapGet]
    · simp [mapSet, h, mapGet, ih]

theorem mapGet_mapSet_ne (m : List (String × α)) (k k' : String) (v : α)
    (h : k' ≠ k) : mapGet (mapSet m k v) k' = mapGet m k' := by
  induction m with
  | nil => simp [mapSet, mapGet, Ne.symm h]
  | cons p rest ih =>
    by_cases hp : p.1 = k
    · simp [mapSet, hp, mapGet, Ne.symm h]
    · simp [mapSet, hp, mapGet, ih]

theorem mapGet_eq_some_mem {m : List (String × α)} {k : String} {v : α}
    (h : mapGet m k = some v) : (k, v) ∈ m := by
  induction m with
  | nil => simp [mapGet] at h
  | cons p rest ih =>
    rw [mapGet] at h
    split at h
    · rename_i hp
      cases h
      have hkp : (k, p.2) = p := by cases p; simp_all
      rw [hkp]
      exact List.mem_cons_self _ _
    · exact List.mem_cons_of_mem _ (ih h)

theorem mapGet_eq_some_of_mem {m : List (String × α)} {k : String} {v : α}
    (hnd : (m.map Prod.fst).Nodup) (h : (k, v) ∈ m) : mapGet m k = some v := by
  induction m with
  | nil => simp at h
  | cons p rest ih =>
    simp only [List.map_cons, List.nodup_cons] at hnd
    rcases List.mem_cons.mp h with h1 | h1
    · rw [← h1, mapGet]
      simp
    · rw [mapGet]
      split
      · rename_i hp
        exfalso
        exact hnd.1 (hp ▸ (List.mem_map.mpr ⟨(k, v), h1, rfl⟩))
      · exact ih hnd.2 h1

theorem mapGet_isSome_iff_mem_keys {m : List (String × α)} {k : String} :
    (mapGet m k).isSome = true ↔ k ∈ m.map Prod.fst := by
  induction m with
  | nil => simp [mapGet]
  | cons p rest ih =>
    rw [mapGet]
    split
    · rename_i hp
      simp [hp]
    · rename_i hp
      simp [ih, Ne.symm hp]

theorem keys_mapSet_subset {m : List (String × α)} {k : String} {v : α} :
    ∀ x ∈ (mapSet m k v).map Prod.fst, x = k ∨ x ∈ m.map Prod.fst := by
  induction m with
  | nil => simp [mapSet]
  | cons p rest ih =>
    intro x hx
    by_cases hp : p.1 = k
    · simp only [mapSet, if_pos hp, List.map_cons, List.mem_cons] at hx
      rcases hx with h | h
      · exact Or.inl h
      · exact Or.inr (by simp [h])
    · simp only [mapSet, if_neg hp, List.map_cons, List.mem_cons] at hx
      rcases hx with h | h
      · exact Or.inr (by simp [h])
      · rcases ih x h with h' | h'
        · exact Or.inl h'
        · exact Or.inr (by simp [h'])

theorem nodup_keys_mapSet {m : List (String × α)} {k : String} {v : α}
    (hnd : (m.map Prod.fst).Nodup) : ((mapSet m k v).map Prod.fst).Nodup := by
  induction m with
  | nil => simp [mapSet]
  | cons p rest ih =>
    simp only [List.map_cons, List.nodup_cons] at hnd
    by_cases hp : p.1 = k
    · simp only [mapSet, if_pos hp, List.map_cons, List.nodup_cons]
      exact ⟨hp ▸ hnd.1, hnd.2⟩
    · simp only [mapSet, if_neg hp, List.map_cons, List.nodup_cons]
      refine ⟨fun hmem => ?_, ih hnd.2⟩
      rcases keys_mapSet_subset p.1 hmem with h | h
      · exact hp h
      · exact hnd.1 h

theorem mem_mapSet {m : List (String × α)} {k : String} {v : α} {p : String × α}
    (hnd : (m.map Prod.fst).Nodup) (hp : p ∈ mapSet m k v) :
    p = (k, v) ∨ (p ∈ m ∧ p.1 ≠ k) := by
  induction m with
  | nil => simp [mapSet] at hp; exact Or.inl hp
  | cons q rest ih =>
    simp only [List.map_cons, List.nodup_cons] at hnd
    by_cases hq : q.1 = k
    · simp only [mapSet, if_pos hq, List.mem_cons] at hp
      rcases hp with h | h
      · exact Or.inl h
      · refine Or.inr ⟨List.mem_cons_of_mem _ h, fun hk => ?_⟩
        exact hnd.1 (hq ▸ hk ▸ (List.mem_map.mpr ⟨p, h, rfl⟩))
    · simp only [mapSet, if_neg hq, List.mem_cons] at hp
      rcases hp with h | h
      · exact Or.inr ⟨List.mem_cons.mpr (Or.inl h), h ▸ hq⟩
      · rcases ih hnd.2 h with h' | h'
        · exact Or.inl h'
        · exact Or.inr ⟨List.mem_cons_of_mem _ h'.1, h'.2⟩

theorem mapHas_false_iff {m : List (String × α)} {k : String} :
    mapHas m k = false ↔ mapGet m k = none := by
  unfold mapHas
  cases h : mapGet m k <;> simp [h]

/-! ### The generator loop -/

theorem generateLoop_eq (gen : Nat → String) (m : List (String × String))
    (i : Nat) :
    generateLoop gen m i =
      if i + 1 > 10 then .error .generationExhausted
      else if mapHas m (gen i) then generateLoop gen m (i + 1)
      else .ok (gen i) := by
  rw [generateLoop]

theorem generateLoop_ok (gen : Nat → String) (m : List (String × String)) :
    ∀ n i c, 11 - i ≤ n → generateLoop gen m i = .ok c →
      mapHas m c = false ∧ ∃ j, c = gen j := by
  intro n
  induction n with
  | zero =>
    intro i c hle heq
    rw [generateLoop_eq] at heq
    rw [if_pos (by omega)] at heq
    exact absurd heq (by simp)
  | succ n ih =>
    intro i c hle heq
    rw [generateLoop_eq] at heq
    by_cases hi : i + 1 > 10
    · rw [if_pos hi] at heq
      exact absurd heq (by simp)
    · rw [if_neg hi] at heq
      by_cases hh : mapHas m (gen i) = true
      · rw [if_pos hh] at heq
        exact ih (i + 1) c (by omega) heq
      · rw [if_neg hh] at heq
        cases heq
        exact ⟨Bool.eq_false_iff.mpr hh, i, rfl⟩

theorem generateShortcode_ok {gen : Nat → String} {m : List (String × String)}
    {c : String} (h : generateShortcode gen m = .ok c) :
    mapHas m c = false ∧ ∃ j, c = gen j :=
  generateLoop_ok gen m 11 0 c (by omega) h

/-! ### The store invariant -/

/-- Well-formedness of the store, maintained by all operations: keys of both
maps are distinct, every `shortcodeToUrl` pair points via a nonempty id at a
stored entry carrying that shortcode, and every stored entry is keyed by its
own id and indexed under its shortcode. -/
def WF (st : Store) : Prop :=
  (st.urlStore.map Prod.fst).Nodup ∧
  (st.shortcodeToUrl.map Prod.fst).Nodup ∧
  (∀ p ∈ st.shortcodeToUrl, p.2 ≠ "" ∧
    (mapGet st.urlStore p.2).map URLEntry.shortcode = some p.1) ∧
  (∀ q ∈ st.urlStore, q.2.id = q.1 ∧
    mapGet st.shortcodeToUrl q.2.shortcode = some q.1)

instance : DecidablePred WF := fun st => by
  unfold WF
  infer_instance

/-- One state-changing call to the service.  The `create` step carries the
practical nanoid guarantee that the fresh entry id is nonempty and not yet a
key of `urlStore`. -/
inductive Step : Store → Store → Prop where
  | create (now : Int) (newId : String) (gen : Nat → String)
      (originalURL : String) (validity : Option Int)
      (customShortcode : Option String) (st : Store)
      (hId : newId ≠ "") (hfresh : mapHas st.urlStore newId = false) :
      Step st (createShortURL now newId gen originalURL validity customShortcode st).1
  | click (now : Int) (st : Store) (shortcode : String)
      (referrer ip : Option String) :
      Step st (recordClick now st shortcode referrer ip).1

/-- Store states reachable from the empty store at process start. -/
def Reachable (st : Store) : Prop :=
  Relation.ReflTransGen Step emptyStore st

/-! ### Inversion of a successful create -/

theorem pickShortcode_ok {gen : Nat → String} {m : List (String × String)}
    {custom : Option String} {sc : String}
    (h : pickShortcode gen m custom = .ok sc) :
    mapHas m sc = false ∧
      ((∃ c, custom = some c ∧ c ≠ "" ∧ sc = c ∧ validateShortcode c = true) ∨
        generateShortcode gen m = .ok sc) := by
  rcases custom with _ | c
  · simp only [pickShortcode] at h
    exact ⟨(generateShortcode_ok h).1, Or.inr h⟩
  · simp only [pickShortcode] at h
    by_cases hc0 : c = ""
    · rw [if_pos hc0] at h
      exact ⟨(generateShortcode_ok h).1, Or.inr h⟩
    · rw [if_neg hc0] at h
      by_cases hvs : (!validateShortcode c) = true
      · rw [if_pos hvs] at h
        exact absurd h (by simp)
      · rw [if_neg hvs] at h
        by_cases hcol : mapHas m c = true
        · rw [if_pos hcol] at h
          exact absurd h (by simp)
        · rw [if_neg hcol] at h
          cases h
          have hv : validateShortcode sc = true := by
            revert hvs
            cases validateShortcode sc <;> simp
          exact ⟨Bool.eq_false_iff.mpr hcol, Or.inl ⟨sc, rfl, hc0, rfl, hv⟩⟩

theorem createShortURL_ok_inv {now : Int} {newId : String} {gen : Nat → String}
    {url : String} {validity : Option Int} {custom : Option String}
    {st st2 : Store} {res : CreateResult}
    (h : createShortURL now newId gen url validity custom st = (st2, .ok res)) :
    validateURL url = true ∧
    0 ≤ validity.getD 30 ∧
    ∃ sc, mapHas st.shortcodeToUrl sc = false ∧
      res = { shortLink := baseURL ++ sc, expiry := now + validity.getD 30 } ∧
      st2 = { urlStore := mapSet st.urlStore newId
                { id := newId, originalURL := url, shortcode := sc,
                  createdAt := now + validity.getD 30,
                  expiryTime := now + validity.getD 30,
                  clicks := [], totalClicks := 0 },
              shortcodeToUrl := mapSet st.shortcodeToUrl sc newId } ∧
      ((∃ c, custom = some c ∧ c ≠ "" ∧ sc = c ∧ validateShortcode c = true) ∨
        generateShortcode gen st.shortcodeToUrl = .ok sc) := by
  unfold createShortURL at h
  by_cases hu : (!validateURL url) = true
  · rw [if_pos hu] at h
    exact absurd (congrArg Prod.snd h) (by simp)
  · rw [if_neg hu] at h
    have hu2 : validateURL url = true := by
      revert hu
      cases validateURL url <;> simp
    by_cases hv : (validity.getD 30 ≠ 0 ∧ validity.getD 30 ≤ 0)
    · rw [if_pos hv] at h
      exact absurd (congrArg Prod.snd h) (by simp)
    · rw [if_neg hv] at h
      refine ⟨hu2, by omega, ?_⟩
      rcases hsc : pickShortcode gen st.shortcodeToUrl custom with e | sc
      · rw [hsc] at h
        exact absurd (congrArg Prod.snd h) (by simp)
      · rw [hsc] at h
        simp only [Prod.mk.injEq, Except.ok.injEq] at h
        obtain ⟨h1, h2⟩ := h
        exact ⟨sc, (pickShortcode_ok hsc).1, h2.symm, h1.symm,
          (pickShortcode_ok hsc).2⟩

/-! ### Failed creates leave the store untouched -/

theorem createShortURL_error_store {now : Int} {newId : String}
    {gen : Nat → String} {url : String} {validity : Option Int}
    {custom : Option String} {st : Store} {e : CreateError}
    (h : (createShortURL now newId gen url validity custom st).2 = .error e) :
    (createShortURL now newId gen url validity custom st).1 = st := by
  unfold createShortURL at h ⊢
  by_cases hu : (!validateURL url) = true
  · rw [if_pos hu]
  · rw [if_neg hu] at h ⊢
    by_cases hv : (validity.getD 30 ≠ 0 ∧ validity.getD 30 ≤ 0)
    · rw [if_pos hv]
    · rw [if_neg hv] at h ⊢
      rcases hsc : pickShortcode gen st.shortcodeToUrl custom with er | sc
      · rfl
      · rw [hsc] at h
        simp at h

/-! ### The invariant holds in every reachable state -/

theorem wf_empty : WF emptyStore := by
  refine ⟨?_, ?_, ?_, ?_⟩ <;> simp [emptyStore]

theorem wf_create {now : Int} {newId : String} {gen : Nat → String}
    {url : String} {validity : Option Int} {custom : Option String}
    {st st2 : Store} {r : Except CreateError CreateResult}
    (hwf : WF st) (hId : newId ≠ "") (hfresh : mapHas st.urlStore newId = false)
    (h : createShortURL now newId gen url validity custom st = (st2, r)) :
    WF st2 := by
  rcases r with e | res
  · have h2 : (createShortURL now newId gen url validity custom st).2 = .error e := by
      rw [h]
    have h1 := createShortURL_error_store h2
    rw [h] at h1
    rwa [← h1] at hwf
  · obtain ⟨hu, hvpos, sc, hhas, hres, hst2, hsrc⟩ := createShortURL_ok_inv h
    subst hst2
    obtain ⟨nd1, nd2, hsc2url, hurl2sc⟩ := hwf
    have hfresh2 : (mapGet st.urlStore newId).isSome = false := by
      rw [mapHas] at hfresh
      exact hfresh
    have hhas2 : (mapGet st.shortcodeToUrl sc).isSome = false := by
      rw [mapHas] at hhas
      exact hhas
    refine ⟨nodup_keys_mapSet nd1, nodup_keys_mapSet nd2, ?_, ?_⟩
    · intro p hp
      rcases mem_mapSet nd2 hp with rfl | ⟨hpm, hpne⟩
      · refine ⟨hId, ?_⟩
        rw [mapGet_mapSet_self]
        rfl
      · obtain ⟨hne, hmap⟩ := hsc2url p hpm
        refine ⟨hne, ?_⟩
        have hpne2 : p.2 ≠ newId := by
          intro heq
          rcases hmg : mapGet st.urlStore p.2 with _ | e0
          · rw [hmg] at hmap
            simp at hmap
          · rw [heq] at hmg
            rw [hmg] at hfresh2
            simp at hfresh2
        rw [mapGet_mapSet_ne _ _ _ _ hpne2]
        exact hmap
    · intro q hq
      rcases mem_mapSet nd1 hq with rfl | ⟨hqm, hqne⟩
      · exact ⟨rfl, mapGet_mapSet_self _ _ _⟩
      · obtain ⟨hid, hmap⟩ := hurl2sc q hqm
        refine ⟨hid, ?_⟩
        have hscne : q.2.shortcode ≠ sc := by
          intro heq
          rw [heq] at hmap
          rw [hmap] at hhas2
          simp at hhas2
        rw [mapGet_mapSet_ne _ _ _ _ hscne]
        exact hmap

/-- The entry a shortcode leads to through both indexes, expiry ignored. -/
def storedEntry (st : Store) (sc : String) : Option URLEntry :=
  (mapGet st.shortcodeToUrl sc).bind (mapGet st.urlStore)

/-- Under the invariant, `recordClick` is exactly: look the entry up, fail
(store unchanged) when it is absent or expired, otherwise append one click
and bump the counter. -/
theorem recordClick_eq (now : Int) (st : Store) (sc : String)
    (ref ip : Option String) (hwf : WF st) :
    recordClick now st sc ref ip =
      match storedEntry st sc with
      | none => (st, false)
      | some e =>
        if now > e.expiryTime then (st, false)
        else ({ st with
            urlStore := mapSet st.urlStore e.id (addClick e (mkClick now ref ip)) },
          true)
    := by
  unfold recordClick
  rcases hg : mapGet st.shortcodeToUrl sc with _ | urlId
  · simp [storedEntry, hg]
  · obtain ⟨hne, hmap⟩ := hwf.2.2.1 (sc, urlId) (mapGet_eq_some_mem hg)
    rcases hm : mapGet st.urlStore urlId with _ | e
    · rw [hm] at hmap
      simp at hmap
    · have hid : e.id = urlId := (hwf.2.2.2 (urlId, e) (mapGet_eq_some_mem hm)).1
      simp only [storedEntry, hg, hm, Option.some_bind]
      rw [if_neg hne, hid]

theorem recordClick_none (now : Int) (st : Store) (sc : String)
    (ref ip : Option String) (hwf : WF st) (h : storedEntry st sc = none) :
    recordClick now st sc ref ip = (st, false) := by
  rw [recordClick_eq now st sc ref ip hwf, h]

theorem recordClick_expired (now : Int) (st : Store) (sc : String)
    (ref ip : Option String) (e : URLEntry) (hwf : WF st)
    (h : storedEntry st sc = some e) (hexp : now > e.expiryTime) :
    recordClick now st sc ref ip = (st, false) := by
  rw [recordClick_eq now st sc ref ip hwf, h]
  simp [hexp]

theorem recordClick_success (now : Int) (st : Store) (sc : String)
    (ref ip : Option String) (e : URLEntry) (hwf : WF st)
    (h : storedEntry st sc = some e) (hexp : ¬ now > e.expiryTime) :
    recordClick now st sc ref ip =
      ({ st with
          urlStore := mapSet st.urlStore e.id (addClick e (mkClick now ref ip)) },
        true) := by
  rw [recordClick_eq now st sc ref ip hwf, h]
  simp [hexp]

theorem wf_click {now : Int} {st : Store} {sc : String} {ref ip : Option String}
    (hwf : WF st) : WF (recordClick now st sc ref ip).1 := by
  rcases hse : storedEntry st sc with _ | e
  · rw [recordClick_none now st sc ref ip hwf hse]
    exact hwf
  · by_cases hexp : now > e.expiryTime
    · rw [recordClick_expired now st sc ref ip e hwf hse hexp]
      exact hwf
    · rw [recordClick_success now st sc ref ip e hwf hse hexp]
      obtain ⟨nd1, nd2, hsc2url, hurl2sc⟩ := hwf
      unfold storedEntry at hse
      rcases hg : mapGet st.shortcodeToUrl sc with _ | urlId
      · rw [hg] at hse
        simp at hse
      · rw [hg] at hse
        have hse2 : mapGet st.urlStore urlId = some e := hse
        obtain ⟨hid0, hmap0⟩ := hurl2sc (urlId, e) (mapGet_eq_some_mem hse2)
        have hid : e.id = urlId := hid0
        have hmap : mapGet st.shortcodeToUrl e.shortcode = some urlId := hmap0
        refine ⟨nodup_keys_mapSet nd1, nd2, ?_, ?_⟩
        · intro p hp
          obtain ⟨hne, hmap2⟩ := hsc2url p hp
          refine ⟨hne, ?_⟩
          by_cases hpe : p.2 = urlId
          · rw [hid, hpe, mapGet_mapSet_self]
            rw [hpe, hse2] at hmap2
            simpa using hmap2
          · rw [hid, mapGet_mapSet_ne _ _ _ _ hpe]
            exact hmap2
        · intro q hq
          rcases mem_mapSet nd1 hq with rfl | ⟨hqm, hqne⟩
          · refine ⟨rfl, ?_⟩
            rw [hid]
            exact hmap
          · exact hurl2sc q hqm

theorem wf_create_fst {now : Int} {newId : String} {gen : Nat → String}
    {url : String} {validity : Option Int} {custom : Option String} {st : Store}
    (hwf : WF st) (hId : newId ≠ "") (hfresh : mapHas st.urlStore newId = false) :
    WF (createShortURL now newId gen url validity custom st).1 := by
  rcases h : createShortURL now newId gen url validity custom st with ⟨st2, r⟩
  exact wf_create hwf hId hfresh h

/-- Every reachable store is well-formed. -/
theorem reachable_wf {st : Store} (h : Reachable st) : WF st := by
  unfold Reachable at h
  induction h with
  | refl => exact wf_empty
  | tail _ hstep ih =>
    cases hstep with
    | create now newId gen url validity custom st1 hId hfresh =>
      exact wf_create_fst ih hId hfresh
    | click now st1 sc ref ip =>
      exact wf_click ih

/-! ### Lookup characterization -/

/-- Under the invariant, `getURLByShortcode` is exactly: look the entry up
through both indexes and hide it iff `now` is strictly after its expiry. -/
theorem getURLByShortcode_eq (now : Int) (st : Store) (sc : String)
    (hwf : WF st) :
    getURLByShortcode now st sc =
      match storedEntry st sc with
      | none => none
      | some e => if now > e.expiryTime then none else some e := by
  unfold getURLByShortcode
  rcases hg : mapGet st.shortcodeToUrl sc with _ | urlId
  · simp [storedEntry, hg]
  · obtain ⟨hne, hmap⟩ := hwf.2.2.1 (sc, urlId) (mapGet_eq_some_mem hg)
    rcases hm : mapGet st.urlStore urlId with _ | e
    · rw [hm] at hmap
      simp at hmap
    · simp only [storedEntry, hg, hm, Option.some_bind]
      rw [if_neg hne]

/-! ### A concrete store for instantiating the theorems -/

/-- The single entry produced by a create at time 1000, validity 30, custom
shortcode "abc123". -/
def entryOne : URLEntry :=
  { id := "id1", originalURL := "https://example.com", shortcode := "abc123",
    createdAt := 1030, expiryTime := 1030, clicks := [], totalClicks := 0 }

/-- The store holding exactly `entryOne`. -/
def stOne : Store := ⟨[("id1", entryOne)], [("abc123", "id1")]⟩

theorem createShortURL_stOne :
    createShortURL 1000 "id1" (fun _ => "zzzz9999") "https://example.com"
        (some 30) (some "abc123") emptyStore
      = (stOne, .ok { shortLink := "http://localhost:5000/abc123", expiry := 1030 }) := by
  rfl

/-! ### Claims -/

/-- C1: the claim — the stored `expiresAt` equals the stored `createdAt`
plus `validityMinutes`, and is strictly after it — fails on the code:
`createdAt.add(validity, 'minutes')` mutates `createdAt` (moment.js `add`
returns the mutated receiver), so a successful create at time 1000 with
validity 30 stores `createdAt = expiryTime = 1030`: the stored expiry is not
`createdAt + 30` and is not strictly after `createdAt`. -/
theorem claim1_createdAt_equals_expiry :
    ∃ e, mapGet (createShortURL 1000 "id1" (fun _ => "zzzz9999")
        "https://example.com" (some 30) (some "abc123") emptyStore).1.urlStore
        "id1" = some e ∧
      e.createdAt = e.expiryTime ∧ ¬ e.createdAt < e.expiryTime ∧
      e.createdAt = 1030 :=
  ⟨entryOne, rfl, rfl, by decide, rfl⟩

/-- C4: the claim — create fails with `InvalidValidity` whenever
`validityMinutes` is provided and not positive — fails on the code at the
provided value 0: `0` is falsy, so the guard
`validity && (typeof validity !== 'number' || validity <= 0)` does not fire
and the create succeeds, storing an entry whose expiry is its creation
instant.  The absent-validity default of 30 does hold. -/
theorem claim4_zero_validity_accepted :
    (createShortURL 1000 "id1" (fun _ => "zzzz9999") "https://example.com"
        (some 0) (some "abc123") emptyStore).2
      = .ok { shortLink := "http://localhost:5000/abc123", expiry := 1000 } ∧
    (createShortURL 1000 "id1" (fun _ => "zzzz9999") "https://example.com"
        none (some "abc123") emptyStore).2
      = .ok { shortLink := "http://localhost:5000/abc123", expiry := 1030 } :=
  ⟨rfl, rfl⟩

/-- C7: whenever `createShortURL` fails — with any of the five error kinds —
neither the `urlStore` index nor the `shortcodeToUrl` index is modified. -/
theorem claim7_create_atomic (now : Int) (newId : String) (gen : Nat → String)
    (url : String) (validity : Option Int) (custom : Option String)
    (st : Store) (e : CreateError)
    (h : (createShortURL now newId gen url validity custom st).2 = .error e) :
    (createShortURL now newId gen url validity custom st).1.urlStore
        = st.urlStore ∧
    (createShortURL now newId gen url validity custom st).1.shortcodeToUrl
        = st.shortcodeToUrl := by
  rw [createShortURL_error_store h]
  exact ⟨rfl, rfl⟩

/-- Witness for C7 at the concrete failing input "not-a-url". -/
theorem claim7_create_atomic_witness :
    (createShortURL 5 "id1" (fun _ => "zzzz9999") "not-a-url" none none
        emptyStore).2 = .error .invalidURL ∧
    (createShortURL 5 "id1" (fun _ => "zzzz9999") "not-a-url" none none
        emptyStore).1.urlStore = emptyStore.urlStore ∧
    (createShortURL 5 "id1" (fun _ => "zzzz9999") "not-a-url" none none
        emptyStore).1.shortcodeToUrl = emptyStore.shortcodeToUrl :=
  ⟨rfl, claim7_create_atomic 5 "id1" (fun _ => "zzzz9999") "not-a-url" none none
    emptyStore .invalidURL rfl⟩

/-- C8: a successful `createShortURL(u)` immediately followed by
`getURLByShortcode` on the shortcode of the returned short link yields an
entry whose `originalURL` is `u`. -/
theorem claim8_roundtrip (now : Int) (newId : String) (gen : Nat → String)
    (u : String) (validity : Option Int) (custom : Option String)
    (st st2 : Store) (res : CreateResult) (hId : newId ≠ "")
    (h : createShortURL now newId gen u validity custom st = (st2, .ok res)) :
    ∃ sc e, res.shortLink = baseURL ++ sc ∧
      getURLByShortcode now st2 sc = some e ∧ e.originalURL = u := by
  obtain ⟨hu, hvpos, sc, hhas, hres, hst2, hsrc⟩ := createShortURL_ok_inv h
  subst hst2
  subst hres
  have hnot : ¬ now > now + validity.getD 30 := by omega
  refine ⟨sc, { id := newId, originalURL := u, shortcode := sc, createdAt := now + validity.getD 30, expiryTime := now + validity.getD 30, clicks := [], totalClicks := 0 }, rfl, ?_, rfl⟩
  unfold getURLByShortcode
  simp [mapGet_mapSet_self, hId, hnot]

/-- Witness for C8: the create of `stOne` followed by a lookup at the same
instant returns the original URL. -/
theorem claim8_roundtrip_witness :
    ∃ sc e,
      ({ shortLink := "http://localhost:5000/abc123", expiry := 1030 } :
          CreateResult).shortLink = baseURL ++ sc ∧
      getURLByShortcode 1000 stOne sc = some e ∧
      e.originalURL = "https://example.com" :=
  claim8_roundtrip 1000 "id1" (fun _ => "zzzz9999") "https://example.com"
    (some 30) (some "abc123") emptyStore stOne
    { shortLink := "http://localhost:5000/abc123", expiry := 1030 }
    (by decide) createShortURL_stOne

theorem mem_eq_of_nodup_keys {m : List (String × α)}
    (hnd : (m.map Prod.fst).Nodup) {p q : String × α}
    (hp : p ∈ m) (hq : q ∈ m) (hk : p.1 = q.1) : p = q := by
  have h1 : mapGet m p.1 = some p.2 := mapGet_eq_some_of_mem hnd hp
  have h2 : mapGet m q.1 = some q.2 := mapGet_eq_some_of_mem hnd hq
  rw [hk] at h1
  rw [h2] at h1
  have hv : q.2 = p.2 := Option.some.inj h1
  cases p
  cases q
  simp_all

/-- C2: in every reachable store, distinct stored entries carry distinct
shortcodes; and a create whose custom shortcode already is a key of the
shortcode index fails with `ShortcodeCollision` and leaves the store — and
hence both indexes — unchanged. -/
theorem claim2_shortcode_unique (st : Store) (hreach : Reachable st) :
    (∀ p ∈ st.urlStore, ∀ q ∈ st.urlStore, p ≠ q →
      p.2.shortcode ≠ q.2.shortcode) ∧
    (∀ (now : Int) (newId : String) (gen : Nat → String) (url : String)
        (validity : Option Int) (c : String),
      validateURL url = true →
      ¬(validity.getD 30 ≠ 0 ∧ validity.getD 30 ≤ 0) →
      c ≠ "" → validateShortcode c = true →
      mapHas st.shortcodeToUrl c = true →
      createShortURL now newId gen url validity (some c) st
        = (st, .error .shortcodeCollision)) := by
  have hwf := reachable_wf hreach
  obtain ⟨nd1, nd2, hsc2url, hurl2sc⟩ := hwf
  constructor
  · intro p hp q hq hne heq
    have h1 := (hurl2sc p hp).2
    have h2 := (hurl2sc q hq).2
    rw [heq] at h1
    rw [h2] at h1
    have hkey : p.1 = q.1 := (Option.some.inj h1).symm
    exact hne (mem_eq_of_nodup_keys nd1 hp hq hkey)
  · intro now newId gen url validity c hu hv hc0 hvs hcol
    unfold createShortURL
    simp [hu, hv, pickShortcode, hc0, hvs, hcol]

/-- Witness for C2 at the one-entry reachable store `stOne`. -/
theorem claim2_shortcode_unique_witness :
    (∀ p ∈ stOne.urlStore, ∀ q ∈ stOne.urlStore, p ≠ q →
      p.2.shortcode ≠ q.2.shortcode) ∧
    (∀ (now : Int) (newId : String) (gen : Nat → String) (url : String)
        (validity : Option Int) (c : String),
      validateURL url = true →
      ¬(validity.getD 30 ≠ 0 ∧ validity.getD 30 ≤ 0) →
      c ≠ "" → validateShortcode c = true →
      mapHas stOne.shortcodeToUrl c = true →
      createShortURL now newId gen url validity (some c) stOne
        = (stOne, .error .shortcodeCollision)) := by
  have hstep : Step emptyStore stOne := by
    have h := Step.create 1000 "id1" (fun _ => "zzzz9999") "https://example.com"
      (some 30) (some "abc123") emptyStore (by decide) (by decide)
    rwa [show (createShortURL 1000 "id1" (fun _ => "zzzz9999")
        "https://example.com" (some 30) (some "abc123") emptyStore).1 = stOne
      from congrArg Prod.fst createShortURL_stOne] at h
  exact claim2_shortcode_unique stOne (Relation.ReflTransGen.single hstep)

/-- C3: under the invariant, `getURLByShortcode` returns not-found exactly
when the shortcode is absent from the index or `now` is strictly after the
entry's expiry; otherwise it returns the stored entry; and
`getURLStatistics` is its projection, hence follows the same visibility
rule. -/
theorem claim3_lookup_visibility (now : Int) (st : Store) (sc : String)
    (hwf : WF st) :
    (getURLByShortcode now st sc = none ↔
      mapGet st.shortcodeToUrl sc = none ∨
      ∃ e, storedEntry st sc = some e ∧ now > e.expiryTime) ∧
    (∀ e, storedEntry st sc = some e → ¬ now > e.expiryTime →
      getURLByShortcode now st sc = some e) ∧
    getURLStatistics now st sc
      = (getURLByShortcode now st sc).map (entryStats sc) := by
  have heq := getURLByShortcode_eq now st sc hwf
  refine ⟨?_, ?_, rfl⟩
  · rw [heq]
    rcases hse : storedEntry st sc with _ | e
    · have hgnone : mapGet st.shortcodeToUrl sc = none := by
        rcases hg : mapGet st.shortcodeToUrl sc with _ | urlId
        · rfl
        · obtain ⟨hne, hmap⟩ := hwf.2.2.1 (sc, urlId) (mapGet_eq_some_mem hg)
          unfold storedEntry at hse
          rw [hg] at hse
          have hse2 : mapGet st.urlStore urlId = none := hse
          rw [hse2] at hmap
          simp at hmap
      simp [hgnone]
    · have hgsome : ¬ mapGet st.shortcodeToUrl sc = none := by
        intro hg
        unfold storedEntry at hse
        rw [hg] at hse
        simp at hse
      by_cases hexp : now > e.expiryTime
      · simp [hexp, hgsome]
      · simp [hexp, hgsome]
  · intro e hse hexp
    rw [heq, hse]
    simp [hexp]

/-- Witness for C3 at `stOne` and a time after its expiry. -/
theorem claim3_lookup_visibility_witness :
    (getURLByShortcode 2000 stOne "abc123" = none ↔
      mapGet stOne.shortcodeToUrl "abc123" = none ∨
      ∃ e, storedEntry stOne "abc123" = some e ∧ 2000 > e.expiryTime) ∧
    (∀ e, storedEntry stOne "abc123" = some e → ¬ (2000 : Int) > e.expiryTime →
      getURLByShortcode 2000 stOne "abc123" = some e) ∧
    getURLStatistics 2000 stOne "abc123"
      = (getURLByShortcode 2000 stOne "abc123").map (entryStats "abc123") :=
  claim3_lookup_visibility 2000 stOne "abc123" (by decide)

/-- C9: `getAllURLs` returns the statistics projection of every stored
entry — one element per entry, each entry's projection present — with no
expiry filtering, although an expired entry is invisible to the
single-entry statistics lookup at the same time. -/
theorem claim9_listAll_unfiltered (st : Store) (hwf : WF st) :
    (getAllURLs st).length = st.urlStore.length ∧
    (∀ q ∈ st.urlStore, entryStats q.2.shortcode q.2 ∈ getAllURLs st ∧
      ∀ now : Int, now > q.2.expiryTime →
        getURLStatistics now st q.2.shortcode = none) := by
  refine ⟨by simp [getAllURLs, mapValues], ?_⟩
  intro q hq
  refine ⟨?_, ?_⟩
  · unfold getAllURLs mapValues
    exact List.mem_map.mpr ⟨q.2, List.mem_map.mpr ⟨q, hq, rfl⟩, rfl⟩
  · intro now hexp
    have hmap := (hwf.2.2.2 q hq).2
    have hget : mapGet st.urlStore q.1 = some q.2 :=
      mapGet_eq_some_of_mem hwf.1 hq
    unfold getURLStatistics
    rw [getURLByShortcode_eq now st q.2.shortcode hwf]
    have hse : storedEntry st q.2.shortcode = some q.2 := by
      unfold storedEntry
      rw [hmap]
      exact hget
    rw [hse]
    simp [hexp]

/-- Witness for C9 at `stOne`. -/
theorem claim9_listAll_unfiltered_witness :
    (getAllURLs stOne).length = stOne.urlStore.length ∧
    (∀ q ∈ stOne.urlStore, entryStats q.2.shortcode q.2 ∈ getAllURLs stOne ∧
      ∀ now : Int, now > q.2.expiryTime →
        getURLStatistics now stOne q.2.shortcode = none) :=
  claim9_listAll_unfiltered stOne (by decide)

/-- C6: `recordClick` returns `false` with the store unchanged (no error)
when the shortcode is unknown or the entry expired; on success it appends
exactly one `ClickRecord` with location "Unknown" — whose referrer defaults
to "direct" when absent — increments `totalClicks`, and returns `true`. -/
theorem claim6_recordClick_spec (now : Int) (st : Store) (sc : String)
    (ref ip : Option String) (hwf : WF st) :
    ((storedEntry st sc = none ∨
        ∃ e, storedEntry st sc = some e ∧ now > e.expiryTime) →
      recordClick now st sc ref ip = (st, false)) ∧
    (∀ e, storedEntry st sc = some e → ¬ now > e.expiryTime →
      ∃ c : ClickRecord, c.location = "Unknown" ∧
        (ref = none → c.referrer = "direct") ∧
        recordClick now st sc ref ip
          = ({ st with urlStore := mapSet st.urlStore e.id { e with clicks := e.clicks ++ [c], totalClicks := e.totalClicks + 1 } }, true)) := by
  constructor
  · rintro (hse | ⟨e, hse, hexp⟩)
    · exact recordClick_none now st sc ref ip hwf hse
    · exact recordClick_expired now st sc ref ip e hwf hse hexp
  · intro e hse hexp
    refine ⟨mkClick now ref ip, rfl, ?_, ?_⟩
    · intro h
      subst h
      rfl
    · exact recordClick_success now st sc ref ip e hwf hse hexp

/-- Witness for C6 at `stOne`, before expiry, with no referrer. -/
theorem claim6_recordClick_spec_witness :
    ((storedEntry stOne "abc123" = none ∨
        ∃ e, storedEntry stOne "abc123" = some e ∧ 1000 > e.expiryTime) →
      recordClick 1000 stOne "abc123" none none = (stOne, false)) ∧
    (∀ e, storedEntry stOne "abc123" = some e → ¬ (1000 : Int) > e.expiryTime →
      ∃ c : ClickRecord, c.location = "Unknown" ∧
        ((none : Option String) = none → c.referrer = "direct") ∧
        recordClick 1000 stOne "abc123" none none
          = ({ stOne with urlStore := mapSet stOne.urlStore e.id { e with clicks := e.clicks ++ [c], totalClicks := e.totalClicks + 1 } }, true)) :=
  claim6_recordClick_spec 1000 stOne "abc123" none none (by decide)

/-- C10: a successful `recordClick` appends exactly one record at the end of
the target entry's click list and increments its counter; the entry's id,
URL, shortcode, `createdAt` and `expiryTime`, the shortcode index, and every
other stored entry are unchanged. -/
theorem claim10_recordClick_frame (now : Int) (st st2 : Store) (sc : String)
    (ref ip : Option String) (hwf : WF st)
    (h : recordClick now st sc ref ip = (st2, true)) :
    st2.shortcodeToUrl = st.shortcodeToUrl ∧
    ∃ e e2, storedEntry st sc = some e ∧
      mapGet st2.urlStore e.id = some e2 ∧
      e2.id = e.id ∧ e2.originalURL = e.originalURL ∧
      e2.shortcode = e.shortcode ∧ e2.createdAt = e.createdAt ∧
      e2.expiryTime = e.expiryTime ∧
      e2.clicks = e.clicks ++ [mkClick now ref ip] ∧
      e2.totalClicks = e.totalClicks + 1 ∧
      (∀ k, k ≠ e.id → mapGet st2.urlStore k = mapGet st.urlStore k) := by
  rcases hse : storedEntry st sc with _ | e
  · rw [recordClick_none now st sc ref ip hwf hse] at h
    simp at h
  · by_cases hexp : now > e.expiryTime
    · rw [recordClick_expired now st sc ref ip e hwf hse hexp] at h
      simp at h
    · rw [recordClick_success now st sc ref ip e hwf hse hexp] at h
      have hst2 : st2 = { st with urlStore := mapSet st.urlStore e.id (addClick e (mkClick now ref ip)) } :=
        (congrArg Prod.fst h).symm
      subst hst2
      refine ⟨rfl, e, addClick e (mkClick now ref ip), rfl, ?_,
        rfl, rfl, rfl, rfl, rfl, rfl, rfl, ?_⟩
      · exact mapGet_mapSet_self _ _ _
      · intro k hk
        exact mapGet_mapSet_ne _ _ _ _ hk

/-- `entryOne` after one click at time 1000 with no referrer and no ip. -/
def entryOneClicked : URLEntry :=
  { entryOne with
    clicks := [{ timestamp := 1000, referrer := "direct", ip := "unknown",
                 location := "Unknown" }],
    totalClicks := 1 }

/-- `stOne` after that click. -/
def stOneClicked : Store :=
  { urlStore := [("id1", entryOneClicked)],
    shortcodeToUrl := [("abc123", "id1")] }

/-- Witness for C10: the successful click taking `stOne` to `stOneClicked`. -/
theorem claim10_recordClick_frame_witness :
    stOneClicked.shortcodeToUrl = stOne.shortcodeToUrl ∧
    ∃ e e2, storedEntry stOne "abc123" = some e ∧
      mapGet stOneClicked.urlStore e.id = some e2 ∧
      e2.id = e.id ∧ e2.originalURL = e.originalURL ∧
      e2.shortcode = e.shortcode ∧ e2.createdAt = e.createdAt ∧
      e2.expiryTime = e.expiryTime ∧
      e2.clicks = e.clicks ++ [mkClick 1000 none none] ∧
      e2.totalClicks = e.totalClicks + 1 ∧
      (∀ k, k ≠ e.id → mapGet stOneClicked.urlStore k = mapGet stOne.urlStore k) :=
  claim10_recordClick_frame 1000 stOne stOneClicked "abc123" none none
    (by decide) rfl

/-- C5 is refuted: with the nanoid oracle constantly producing "abc-1234" —
a legitimate `nanoid(8)` output: 8 characters over `A-Za-z0-9_-` — the
generator path of a successful create stores the shortcode "abc-1234",
which does not match `^[A-Za-z0-9]{3,20}$`. -/
theorem claim5_counterexample :
    ("abc-1234").length = 8 ∧ ("abc-1234").data.all nanoidChar = true ∧
    ∃ e, mapGet (createShortURL 1000 "id1" (fun _ => "abc-1234")
        "https://example.com" (some 30) none emptyStore).1.urlStore "id1"
      = some e ∧ e.shortcode = "abc-1234" ∧
      validateShortcode e.shortcode = false := by
  have hgen : generateShortcode (fun _ => "abc-1234") emptyStore.shortcodeToUrl
      = .ok "abc-1234" := by
    unfold generateShortcode
    rw [generateLoop_eq, if_neg (by decide), if_neg (by decide)]
  have hcr : createShortURL 1000 "id1" (fun _ => "abc-1234")
      "https://example.com" (some 30) none emptyStore
      = ({ urlStore := [("id1", { id := "id1", originalURL := "https://example.com", shortcode := "abc-1234", createdAt := 1030, expiryTime := 1030, clicks := [], totalClicks := 0 })], shortcodeToUrl := [("abc-1234", "id1")] },
        .ok { shortLink := "http://localhost:5000/abc-1234", expiry := 1030 }) := by
    unfold createShortURL
    rw [show pickShortcode (fun _ => "abc-1234") emptyStore.shortcodeToUrl none
        = Except.ok "abc-1234" from hgen]
    rfl
  refine ⟨rfl, by decide,
    { id := "id1", originalURL := "https://example.com", shortcode := "abc-1234", createdAt := 1030, expiryTime := 1030, clicks := [], totalClicks := 0 },
    ?_, rfl, by decide⟩
  rw [hcr]
  rfl

/-- C5 (amended): every shortcode stored by a successful create is either a
caller-supplied one matching `^[A-Za-z0-9]{3,20}$`, or a generated
`nanoid(8)` code: exactly 8 characters over `A-Za-z0-9_-` (so its length is
within 3–20, but it may contain `-` or `_` and need not be alphanumeric). -/
theorem claim5_stored_shortcode_shape (now : Int) (newId : String)
    (gen : Nat → String) (url : String) (validity : Option Int)
    (custom : Option String) (st st2 : Store) (res : CreateResult)
    (hgen : NanoidGen gen)
    (h : createShortURL now newId gen url validity custom st = (st2, .ok res)) :
    ∃ sc e, mapGet st2.urlStore newId = some e ∧ e.shortcode = sc ∧
      (validateShortcode sc = true ∨
        (sc.length = 8 ∧ sc.data.all nanoidChar = true)) := by
  obtain ⟨hu, hv, sc, hhas, hres, hst2, hsrc⟩ := createShortURL_ok_inv h
  subst hst2
  refine ⟨sc, { id := newId, originalURL := url, shortcode := sc, createdAt := now + validity.getD 30, expiryTime := now + validity.getD 30, clicks := [], totalClicks := 0 }, mapGet_mapSet_self _ _ _, rfl, ?_⟩
  rcases hsrc with ⟨c, hc, hc0, rfl, hvs⟩ | hg
  · exact Or.inl hvs
  · obtain ⟨-, j, rfl⟩ := generateShortcode_ok hg
    exact Or.inr ⟨(hgen j).1, (hgen j).2⟩

/-- Witness for C5 (amended) at a custom-shortcode create with a conforming
nanoid oracle. -/
theorem claim5_stored_shortcode_shape_witness :
    ∃ sc e, mapGet stOne.urlStore "id1" = some e ∧ e.shortcode = sc ∧
      (validateShortcode sc = true ∨
        (sc.length = 8 ∧ sc.data.all nanoidChar = true)) :=
  claim5_stored_shortcode_shape 1000 "id1" (fun _ => "zzzz9999")
    "https://example.com" (some 30) (some "abc123") emptyStore stOne
    { shortLink := "http://localhost:5000/abc123", expiry := 1030 }
    (fun _ => ⟨rfl, (by decide : ("zzzz9999").data.all nanoidChar = true)⟩)
    createShortURL_stOne

end URLService
